import Mathlib

/- Verification development for the pubscan repository (plasmatrip/pubscan).

The repository contains two variants of the same tool:
  * the extended variant in `cmd/main.go` (three counter sections, a `--min`
    flag, a hard-coded concurrency semaphore of capacity 5, and branch
    resolution via `getLatestBranch`), and
  * the minimal variant (the unnamed source file, `collectDependencies` etc.,
    with a flat package-to-count map and a `--limit` flag).

Pure fragments of the Go code are embedded as Lean functions below; the
bounded worker pool is embedded as a step relation.  YAML text is embedded
in already-lexed form: a value of type `Option Yaml` stands for the raw
bytes of a manifest, where `none` stands for a byte string that fails YAML
syntax parsing and `some d` stands for text whose parse tree is `d`.  The
decoding of a parse tree into the Go `Pubspec` struct (performed by
`yaml.Unmarshal` with the struct tags in the source) is embedded explicitly.
-/

set_option autoImplicit false

namespace Pubscan

/-! ## Go string helpers

`splitOnP p cs` embeds Go `strings.Split`/`strings.FieldsFunc` behaviour on
a list of characters: it cuts the list at every character satisfying `p`,
keeping empty fragments.  `strings.Split("", "/") = [""]` corresponds to
`splitOnP p [] = [[]]`. -/

def splitOnP (p : Char → Bool) : List Char → List (List Char)
  | [] => [[]]
  | x :: xs =>
    if p x then [] :: splitOnP p xs
    else
      match splitOnP p xs with
      | [] => [[x]]
      | y :: ys => (x :: y) :: ys

/-- Embeds Go `strings.Split(s, "/")`. -/
def goSplitSlash (s : String) : List String :=
  (splitOnP (fun c => c == '/') s.data).map String.mk

/-- ASCII whitespace, standing in for `unicode.IsSpace` on the inputs that
matter here. -/
def isSpaceChar (c : Char) : Bool :=
  c == ' ' || c == '\n' || c == '\t' || c == '\r'

/-- Embeds Go `strings.Fields` (split on whitespace, drop empty fragments). -/
def goFields (s : String) : List String :=
  ((splitOnP isSpaceChar s.data).filter (fun cs => cs ≠ [])).map String.mk

/-- Embeds Go `strings.TrimSpace` on a character list. -/
def trimChars (cs : List Char) : List Char :=
  ((cs.dropWhile isSpaceChar).reverse.dropWhile isSpaceChar).reverse

/-! ## YAML documents and `yaml.Unmarshal` into the `Pubspec` structs -/

/-- A parsed YAML value (only the shapes relevant to `pubspec.yaml`
decoding: mappings, scalars and null). -/
inductive Yaml where
  | null : Yaml
  | str : String → Yaml
  | map : List (String × Yaml) → Yaml

/-- Looking a key up in a YAML mapping (first binding wins). -/
def ylookup (es : List (String × Yaml)) (k : String) : Option Yaml :=
  (es.find? (fun e => e.1 == k)).map (fun e => e.2)

/-- How `yaml.v3` decodes one struct field of Go type
`map[string]interface{}`: an absent field leaves the map `nil`, an explicit
null sets it to `nil`, a mapping yields its keys, and any other value shape
is a type error (`none`).  Ranging over a `nil` Go map visits no keys, so
both `nil` cases are embedded as the empty key list. -/
def decodeMapKeys : Option Yaml → Option (List String)
  | none => some []
  | some Yaml.null => some []
  | some (Yaml.map es) => some (es.map (fun e => e.1))
  | some (Yaml.str _) => none

/-- Field decoding as performed inside `yaml.Unmarshal`: on a field type
error the field keeps its zero value (`nil` map, i.e. no keys) and the
overall call reports an error, but the other fields are still decoded. -/
def sectionOrNil (v : Option Yaml) : List String × Bool :=
  match decodeMapKeys v with
  | some ks => (ks, true)
  | none => ([], false)

/-- The `Pubspec` struct of the extended variant (`cmd/main.go`): three
dependency sections, each embedded by its key list (values are discarded by
the program; Go map keys are unique). -/
structure Pubspec where
  dependencies : List String
  devDependencies : List String
  dependencyOverrides : List String
deriving DecidableEq

/-- Result of `yaml.Unmarshal(data, &ps)` for the extended `Pubspec`:
the struct contents after the call plus whether the call returned `nil`
error.  A syntax-level parse failure (`none` input) leaves the struct at
its zero value and reports an error; a non-mapping document likewise. -/
structure UnmarshalOut where
  ps : Pubspec
  ok : Bool
deriving DecidableEq

/-- Embeds `yaml.Unmarshal` into the three-section `Pubspec` struct of
`cmd/main.go`. -/
def yamlUnmarshalPubspec : Option Yaml → UnmarshalOut
  | none => ⟨⟨[], [], []⟩, false⟩
  | some Yaml.null => ⟨⟨[], [], []⟩, true⟩
  | some (Yaml.str _) => ⟨⟨[], [], []⟩, false⟩
  | some (Yaml.map es) =>
    let d := sectionOrNil (ylookup es "dependencies")
    let dv := sectionOrNil (ylookup es "dev_dependencies")
    let ov := sectionOrNil (ylookup es "dependency_overrides")
    ⟨⟨d.1, dv.1, ov.1⟩, d.2 && dv.2 && ov.2⟩

/-- Embeds `parsePubspec` from `cmd/main.go`:
`_ = yaml.Unmarshal([]byte(content), &ps); return ps` — the decode error is
discarded and whatever was decoded (the zero struct on a syntax error) is
returned. -/
def parsePubspec (src : Option Yaml) : Pubspec :=
  (yamlUnmarshalPubspec src).ps

/-- The two-section `Pubspec` struct of the minimal variant. -/
structure PubspecMin where
  dependencies : List String
  devDependencies : List String
deriving DecidableEq

/-- Embeds `yaml.Unmarshal` into the two-section `Pubspec` struct of the
minimal variant. -/
def yamlUnmarshalPubspecMin : Option Yaml → PubspecMin × Bool
  | none => (⟨[], []⟩, false)
  | some Yaml.null => (⟨[], []⟩, true)
  | some (Yaml.str _) => (⟨[], []⟩, false)
  | some (Yaml.map es) =>
    let d := sectionOrNil (ylookup es "dependencies")
    let dv := sectionOrNil (ylookup es "dev_dependencies")
    (⟨d.1, dv.1⟩, d.2 && dv.2)

/-- Embeds `extractDependencies` from the minimal variant: a YAML decode
error is propagated; otherwise the keys of `dependencies` followed by the
keys of `dev_dependencies` are returned as one flat list. -/
def extractDependencies (src : Option Yaml) : Except Unit (List String) :=
  match yamlUnmarshalPubspecMin src with
  | (_, false) => Except.error ()
  | (p, true) => Except.ok (p.dependencies ++ p.devDependencies)

/-! ## Counter maps (Go `map[string]int`)

A Go `map[string]int` is embedded as an association list; `mapGet` is the
read with zero default (`m[k]` on a missing key) and `mapIncr` is
`m[k]++`. -/

abbrev CountMap := List (String × Nat)

/-- Embeds reading `m[k]` from a Go `map[string]int` (zero if absent). -/
def mapGet : CountMap → String → Nat
  | [], _ => 0
  | e :: rest, k => if e.1 = k then e.2 else mapGet rest k

/-- Embeds `m[k]++` on a Go `map[string]int`. -/
def mapIncr : CountMap → String → CountMap
  | [], k => [(k, 1)]
  | e :: rest, k =>
    if e.1 = k then (e.1, e.2 + 1) :: rest else e :: mapIncr rest k

/-- One `for k := range section { m[k]++ }` loop. -/
def incrAll (m : CountMap) (ks : List String) : CountMap :=
  ks.foldl mapIncr m

/-- The three shared counter maps of `cmd/main.go` (`stats.deps`,
`stats.devDeps`, `stats.overrides`). -/
structure Counters where
  deps : CountMap
  devDeps : CountMap
  overrides : CountMap
deriving DecidableEq

def emptyCounters : Counters := ⟨[], [], []⟩

/-- The merge step of `cmd/main.go` performed under the mutex: for each key
of each section of the parsed manifest, increment that section's counter. -/
def mergePubspec (c : Counters) (p : Pubspec) : Counters :=
  ⟨incrAll c.deps p.dependencies,
   incrAll c.devDeps p.devDependencies,
   incrAll c.overrides p.dependencyOverrides⟩

/-- Merging a list of successfully parsed manifests into the shared
counters, starting from the empty counters. -/
def aggregate (ms : List Pubspec) : Counters :=
  ms.foldl mergePubspec emptyCounters

/-! ## Repository line parsing -/

/-- Embeds `splitRepo` of the minimal variant (and the inline
`strings.Split(full, "/"); len(parts) != 2` check of `cmd/main.go`): a line
is accepted exactly when `strings.Split` on `"/"` yields two parts; the
parts themselves are not inspected further. -/
def splitRepo (full : String) : Option (String × String) :=
  match goSplitSlash full with
  | [owner, repo] => some (owner, repo)
  | _ => none

/-- Modelled from the spec (for comparison only): the spec requires a line
to consist of exactly two slash-separated NON-EMPTY parts. -/
def specValidRepoLine (s : String) : Bool :=
  (goSplitSlash s).length == 2 && (goSplitSlash s).all (fun part => part ≠ "")

/-! ## The per-repository worker of `cmd/main.go`

The network responses a repository's worker observes are embedded as a
`RepoEnv`: the result of `getLatestBranch` and the result of `getPubspec`
(the fetched, base64-decoded file content, in pre-lexed `Option Yaml` form;
`Except.error` covers transport errors, non-200 statuses such as 404, JSON
decode errors and base64 decode errors, all of which the worker treats
alike by logging and returning). -/

structure RepoEnv where
  branchRes : Except Unit String
  contentRes : Except Unit (Option Yaml)

/-- The observable outcome of one worker goroutine of `cmd/main.go`. -/
inductive StepResult where
  | invalidFormat : StepResult
  | branchError : StepResult
  | fetchError : StepResult
  | parseError : StepResult
  | success : Pubspec → StepResult
deriving DecidableEq

/-- Embeds the body of the worker goroutine in `cmd/main.go`: split the
line, resolve the branch, fetch the manifest, parse it (the parse never
fails — `parsePubspec` discards the YAML error), and on success report the
parsed manifest for merging. -/
def mainWorker (line : String) (env : RepoEnv) : StepResult :=
  if (goSplitSlash line).length = 2 then
    match env.branchRes with
    | Except.error _ => StepResult.branchError
    | Except.ok _ =>
      match env.contentRes with
      | Except.error _ => StepResult.fetchError
      | Except.ok src => StepResult.success (parsePubspec src)
  else StepResult.invalidFormat

/-- The effect of one worker outcome on the shared counters: only a
successful worker merges; every failure leaves the counters untouched. -/
def contribOf (r : StepResult) (c : Counters) : Counters :=
  match r with
  | StepResult.success ps => mergePubspec c ps
  | _ => c

/-- The pubspec a worker outcome contributes, if any. -/
def successPubspec : StepResult → Option Pubspec
  | StepResult.success ps => some ps
  | _ => none

/-- The counters produced by the whole fan-out of `cmd/main.go` over a
repository list, each line paired with the network responses its worker
observes.  The final map content is order-independent, so the concurrent
merges are linearised in list order. -/
def runMain (inputs : List (String × RepoEnv)) : Counters :=
  inputs.foldl (fun c le => contribOf (mainWorker le.1 le.2) c) emptyCounters

/-! ## The per-repository worker of the minimal variant -/

/-- The network responses one repository's worker observes in the minimal
variant: `GetContents` can fail (`fetchErr`, covering 404 and transport
errors), `content.GetContent()` can fail (`readErr`, covering base64
errors), or the decoded manifest text is available. -/
inductive FetchMin where
  | fetchErr : FetchMin
  | readErr : FetchMin
  | ok : Option Yaml → FetchMin

/-- The observable outcome of one worker goroutine of the minimal variant. -/
inductive StepResultMin where
  | invalidFormat : StepResultMin
  | fetchError : StepResultMin
  | readError : StepResultMin
  | parseError : StepResultMin
  | success : List String → StepResultMin
deriving DecidableEq

/-- Embeds the body of the worker goroutine in `collectDependencies`. -/
def minimalWorker (line : String) (env : FetchMin) : StepResultMin :=
  match splitRepo line with
  | none => StepResultMin.invalidFormat
  | some _ =>
    match env with
    | FetchMin.fetchErr => StepResultMin.fetchError
    | FetchMin.readErr => StepResultMin.readError
    | FetchMin.ok src =>
      match extractDependencies src with
      | Except.error _ => StepResultMin.parseError
      | Except.ok deps => StepResultMin.success deps

/-- The effect of one minimal-variant worker outcome on the shared flat
counter map: only a success runs the `allDeps[d]++` loop. -/
def contribOfMin (r : StepResultMin) (m : CountMap) : CountMap :=
  match r with
  | StepResultMin.success ds => incrAll m ds
  | _ => m

/-- The flat counter map produced by `collectDependencies` over a
repository list (concurrent merges linearised in list order). -/
def runMinimal (inputs : List (String × FetchMin)) : CountMap :=
  inputs.foldl (fun m le => contribOfMin (minimalWorker le.1 le.2) m) []

/-! ## The reporter of `cmd/main.go` -/

/-- One entry of the final statistics: the raw count and the reference URL. -/
structure PackageEntry where
  count : Nat
  url : String
deriving DecidableEq

/-- Embeds `fmt.Sprintf("https://pub.dev/packages/%s", pkg)`. -/
def pubUrl (pkg : String) : String :=
  "https://pub.dev/packages/" ++ pkg

/-- Embeds one filtering loop of `cmd/main.go`: keep an entry exactly when
`count >= *minUsage` (a Go `int`, hence `Int` here) and attach the raw
count and the pub.dev URL. -/
def buildSection (m : CountMap) (minUsage : Int) : List (String × PackageEntry) :=
  m.filterMap (fun e =>
    if minUsage ≤ (e.2 : Int) then some (e.1, ⟨e.2, pubUrl e.1⟩) else none)

/-- The final `Stats` value of `cmd/main.go`. -/
structure Report where
  dependencies : List (String × PackageEntry)
  devDependencies : List (String × PackageEntry)
  dependencyOverrides : List (String × PackageEntry)
deriving DecidableEq

/-- Embeds the three filtering loops of `cmd/main.go`. -/
def buildReport (c : Counters) (minUsage : Int) : Report :=
  ⟨buildSection c.deps minUsage,
   buildSection c.devDeps minUsage,
   buildSection c.overrides minUsage⟩

/-! ## Whole-run outcomes and exit codes

`cmd/main.go` never calls `os.Exit`; every error path is a plain `return`
from `main`, so the process exit status is always 0 — even when the final
`os.WriteFile` fails.  The minimal variant uses `log.Fatalf` (exit status
1) for the final write error and for configuration errors only; worker
failures merely `log.Printf`. -/

structure RunOutcome (ρ : Type) where
  written : Option ρ
  exitCode : Nat
deriving DecidableEq

/-- The fetch-and-report phase of `cmd/main.go` after configuration
succeeded: aggregate, filter, write.  `writeOk` is whether `os.WriteFile`
succeeds; on failure `main` prints a message and returns (exit status 0). -/
def mainGoRun (inputs : List (String × RepoEnv)) (minUsage : Int)
    (writeOk : Bool) : RunOutcome Report :=
  let rep := buildReport (runMain inputs) minUsage
  if writeOk then ⟨some rep, 0⟩ else ⟨none, 0⟩

/-- The fetch-and-report phase of the minimal variant: `writeJSON` failure
hits `log.Fatalf`, exit status 1. -/
def minimalRun (inputs : List (String × FetchMin)) (writeOk : Bool) :
    RunOutcome CountMap :=
  let m := runMinimal inputs
  if writeOk then ⟨some m, 0⟩ else ⟨none, 1⟩

/-! ## Configuration phase -/

/-- The flag set of `cmd/main.go` with its defaults (`flag.String`/`Int`/
`Bool` calls): `env`, `repos`, `out`, `min` (default 1), `help`.  There is
no `limit` flag in this variant. -/
structure FlagsGo where
  env : String
  repos : String
  out : String
  min : Int
  help : Bool
deriving DecidableEq

def flagsGoDefault : FlagsGo := ⟨"", "", "", 1, false⟩

/-- The flag set of the minimal variant with its defaults: `repos`, `out`,
`env`, `limit` (default 5), `help`. -/
structure FlagsMin where
  repos : String
  out : String
  env : String
  limit : Int
  help : Bool
deriving DecidableEq

def flagsMinDefault : FlagsMin := ⟨"", "", "", 5, false⟩

/-- Flag names registered by each variant (from the `flag.*` calls). -/
def mainGoFlagNames : List String := ["env", "repos", "out", "min", "help"]

def minimalFlagNames : List String := ["repos", "out", "env", "limit", "help"]

/-- The capacity of the worker semaphore in `cmd/main.go`:
`sem := make(chan struct{}, 5)` — a hard-coded 5. -/
def mainGoSemCapacity : Nat := 5

/-- How the configuration phase of a variant ends: either the process is
done before any network call (`exited code`), or control reaches the
fetch fan-out (`proceed`). -/
inductive ConfigOutcome where
  | exited : Nat → ConfigOutcome
  | proceed : ConfigOutcome
deriving DecidableEq

/-- Embeds the configuration phase of `cmd/main.go`: `--help` prints and
returns; missing required flags print and return; an empty
`GITHUB_TOKEN` prints and returns; a repos-file read error prints and
returns; an empty repository list prints and returns.  All of these are
plain `return`s from `main`, so the exit status is 0 in every case.
`tok` is the value of `os.Getenv("GITHUB_TOKEN")` after `godotenv.Load`
(empty when missing); `reposFile` is the result of `os.ReadFile`. -/
def mainGoConfig (fl : FlagsGo) (tok : String) (reposFile : Option String) :
    ConfigOutcome :=
  if fl.help then ConfigOutcome.exited 0
  else if fl.env = "" || fl.repos = "" || fl.out = "" then ConfigOutcome.exited 0
  else if tok = "" then ConfigOutcome.exited 0
  else
    match reposFile with
    | none => ConfigOutcome.exited 0
    | some content =>
      if goFields content = [] then ConfigOutcome.exited 0
      else ConfigOutcome.proceed

/-- Embeds `readEnvToken` of the minimal variant: scan the env file line by
line, trim, and return what follows the first `GITHUB_TOKEN=` prefix
(empty string when no line matches). -/
def readEnvToken (content : String) : String :=
  match ((splitOnP (fun c => c == '\n') content.data).map trimChars).find?
      (fun l => "GITHUB_TOKEN=".data.isPrefixOf l) with
  | some l => String.mk (l.drop "GITHUB_TOKEN=".length)
  | none => ""

/-- Embeds the configuration phase of the minimal variant: `--help` prints
and returns (exit 0); missing required flags hit `os.Exit(1)`; an env-file
open error hits `log.Fatalf` (exit 1); an empty token hits `log.Fatal`
(exit 1); a repos-file read error hits `log.Fatalf` (exit 1).  `envFile`
and `reposFile` are the respective file contents (`none` = I/O error). -/
def minimalConfig (fl : FlagsMin) (envFile : Option String)
    (reposFile : Option String) : ConfigOutcome :=
  if fl.help then ConfigOutcome.exited 0
  else if fl.repos = "" || fl.out = "" || fl.env = "" then ConfigOutcome.exited 1
  else
    match envFile with
    | none => ConfigOutcome.exited 1
    | some content =>
      if readEnvToken content = "" then ConfigOutcome.exited 1
      else
        match reposFile with
        | none => ConfigOutcome.exited 1
        | some _ => ConfigOutcome.proceed

/-! ## Branch selection (`getLatestBranch` of `cmd/main.go`)

The function sorts the branch list with `sort.Slice` using the comparator
`branches[i].Commit.Commit.Author.Date.After(branches[j]...Date)` (strict
greater-than on the commit author timestamp) and returns the name of the
first element.  `sort.Slice` guarantees only that the result is a
permutation of the input ordered by the comparator; it is documented as NOT
stable, so the behaviour on timestamp ties is embedded relationally: any
comparator-ordered permutation is a possible sort result. -/

/-- A branch as decoded from the GitHub branch-list endpoint: its name and
the author timestamp of its latest commit (timestamps as integers). -/
structure Branch where
  name : String
  date : Int
deriving DecidableEq

/-- Adjacent descending order by commit date — the postcondition of
`sort.Slice` with the `Date.After` comparator. -/
def sortedDescB : List Branch → Bool
  | [] => true
  | [_] => true
  | a :: b :: rest => decide (b.date ≤ a.date) && sortedDescB (b :: rest)

/-- Relational embedding of `getLatestBranch`: on an API failure (transport
error, non-200 status, JSON decode error) the result is an error; on an
empty branch list the result is the `no branches found` error; otherwise
the result is `ok` of the name of the head of some comparator-ordered
permutation of the branch list (`sort.Slice` then `branches[0].Name`). -/
def getLatestBranchRel (api : Except Unit (List Branch))
    (res : Except Unit String) : Prop :=
  match api with
  | Except.error _ => res = Except.error ()
  | Except.ok [] => res = Except.error ()
  | Except.ok (b :: bs) =>
    ∃ out, List.Perm (b :: bs) out ∧ sortedDescB out = true ∧
      res = Except.ok ((out.headD b).name)

/-! ## The bounded worker pool

Both variants gate each worker with a buffered channel used as a counting
semaphore (`sem <- struct{}{}` before the fetch, `<-sem` deferred).  The
interleaving of workers is embedded as a step relation on the list of task
phases: an idle task may acquire a slot only while fewer than `cap` tasks
hold one; a task holding a slot may finish and release it.  All fetch work
happens while the slot is held. -/

inductive TaskPhase where
  | idle : TaskPhase
  | active : TaskPhase
  | finished : TaskPhase
deriving DecidableEq

/-- Number of workers currently holding a semaphore slot (and hence
possibly performing a fetch). -/
def inFlight (ts : List TaskPhase) : Nat :=
  ts.countP (fun t => decide (t = TaskPhase.active))

/-- One scheduling step of the pool with semaphore capacity `cap`. -/
inductive PoolStep (cap : Nat) : List TaskPhase → List TaskPhase → Prop where
  | start (ts : List TaskPhase) (i : Nat) :
      ts.get? i = some TaskPhase.idle → inFlight ts < cap →
      PoolStep cap ts (ts.set i TaskPhase.active)
  | finish (ts : List TaskPhase) (i : Nat) :
      ts.get? i = some TaskPhase.active →
      PoolStep cap ts (ts.set i TaskPhase.finished)

/-- States reachable by the pool launched over `n` repositories. -/
inductive PoolReachable (cap n : Nat) : List TaskPhase → Prop where
  | init : PoolReachable cap n (List.replicate n TaskPhase.idle)
  | step {ts ts' : List TaskPhase} :
      PoolReachable cap n ts → PoolStep cap ts ts' → PoolReachable cap n ts'

/-! ## Helper lemmas -/

/-- Incrementing key `k` raises the map's value at `p` by one exactly when
`p = k`, regardless of the map's contents. -/
theorem mapGet_mapIncr (m : CountMap) (k p : String) :
    mapGet (mapIncr m k) p = mapGet m p + if p = k then 1 else 0 := by
  induction m with
  | nil =>
    by_cases h : p = k
    · subst h; simp [mapIncr, mapGet]
    · simp [mapIncr, mapGet, h, Ne.symm h]
  | cons e rest ih =>
    by_cases he : e.1 = k
    · by_cases hp : e.1 = p
      · simp [mapIncr, mapGet, he, hp, hp.symm.trans he]
      · have hpk : ¬p = k := fun hpk => hp (he.trans hpk.symm)
        simp [mapIncr, mapGet, he, hp, hpk, Ne.symm hpk]
    · by_cases hp : e.1 = p
      · have hpk : ¬p = k := fun hpk => he (hp.trans hpk)
        simp [mapIncr, mapGet, he, hp, hpk]
      · simp [mapIncr, mapGet, he, hp, ih]

/-- Running one `for k := range section` increment loop over a
duplicate-free key list raises the counter of `p` by one exactly when `p`
is among the keys. -/
theorem mapGet_incrAll_nodup (ks : List String) (m : CountMap) (p : String)
    (h : ks.Nodup) :
    mapGet (incrAll m ks) p = mapGet m p + if p ∈ ks then 1 else 0 := by
  induction ks generalizing m with
  | nil => simp [incrAll]
  | cons k ks ih =>
    have hnd := List.nodup_cons.mp h
    rw [show incrAll m (k :: ks) = incrAll (mapIncr m k) ks from rfl,
      ih _ hnd.2, mapGet_mapIncr]
    by_cases hpk : p = k
    · subst hpk
      simp [hnd.1]
    · by_cases hpm : p ∈ ks <;> simp [hpk, hpm]

theorem incrAll_append (m : CountMap) (xs ys : List String) :
    incrAll m (xs ++ ys) = incrAll (incrAll m xs) ys := by
  simp [incrAll, List.foldl_append]

/-- Merging a list of manifests into shared counters, read through one
section: the count of `p` grows by the number of manifests declaring `p`
in that section.  `sel`/`selC` pick out one of the three sections. -/
theorem mapGet_foldl_merge (sel : Pubspec → List String)
    (selC : Counters → CountMap)
    (hcomp : ∀ c m, selC (mergePubspec c m) = incrAll (selC c) (sel m))
    (ms : List Pubspec) (c : Counters) (p : String)
    (h : ∀ m ∈ ms, (sel m).Nodup) :
    mapGet (selC (ms.foldl mergePubspec c)) p =
      mapGet (selC c) p +
        (ms.filter (fun m => decide (p ∈ sel m))).length := by
  induction ms generalizing c with
  | nil => simp
  | cons m ms ih =>
    rw [List.foldl_cons, ih _ (fun x hx => h x (List.mem_cons_of_mem _ hx)),
      hcomp, mapGet_incrAll_nodup _ _ _ (h m (List.mem_cons_self _ _))]
    by_cases hp : p ∈ sel m
    · simp [hp, List.filter_cons]
      omega
    · simp [hp, List.filter_cons]

/-- A worker outcome that is not a success leaves the counters untouched. -/
theorem contribOf_eq_self {r : StepResult}
    (h : ∀ ps, r ≠ StepResult.success ps) (c : Counters) :
    contribOf r c = c := by
  cases r with
  | success ps => exact absurd rfl (h ps)
  | invalidFormat => rfl
  | branchError => rfl
  | fetchError => rfl
  | parseError => rfl

/-- A minimal-variant worker outcome that is not a success leaves the flat
counter map untouched. -/
theorem contribOfMin_eq_self {r : StepResultMin}
    (h : ∀ ds, r ≠ StepResultMin.success ds) (m : CountMap) :
    contribOfMin r m = m := by
  cases r with
  | success ds => exact absurd rfl (h ds)
  | invalidFormat => rfl
  | fetchError => rfl
  | readError => rfl
  | parseError => rfl

/-- In an adjacently date-descending list, the head's date dominates. -/
theorem sortedDescB_head_ge (a : Branch) (l : List Branch)
    (h : sortedDescB (a :: l) = true) : ∀ x ∈ l, x.date ≤ a.date := by
  induction l generalizing a with
  | nil => intro x hx; cases hx
  | cons b rest ih =>
    simp only [sortedDescB, Bool.and_eq_true, decide_eq_true_eq] at h
    intro x hx
    rw [List.mem_cons] at hx
    rcases hx with rfl | hx
    · exact h.1
    · exact le_trans (ih b h.2 x hx) h.1

/-- Setting index `i` (whose old entry is `a`) to `v` changes a `countP`
by swapping the old entry's contribution for the new one's. -/
theorem countP_set_balance (p : TaskPhase → Bool) (ts : List TaskPhase) :
    ∀ (i : Nat) (a v : TaskPhase), ts.get? i = some a →
      (ts.set i v).countP p + (if p a then 1 else 0) =
        ts.countP p + (if p v then 1 else 0) := by
  induction ts with
  | nil => intro i a v h; cases h
  | cons x xs ih =>
    intro i a v h
    cases i with
    | zero =>
      simp only [List.get?, Option.some.injEq] at h
      subst h
      simp only [List.set, List.countP_cons]
      by_cases hx : p x <;> by_cases hv : p v <;> simp [hx, hv]
    | succ n =>
      simp only [List.get?] at h
      have hxs := ih n a v h
      simp only [List.set, List.countP_cons]
      by_cases hx : p x <;> by_cases ha : p a <;> by_cases hv : p v <;>
        simp [hx, ha, hv] at hxs ⊢ <;> omega

theorem inFlight_replicate (n : Nat) :
    inFlight (List.replicate n TaskPhase.idle) = 0 := by
  induction n with
  | zero => rfl
  | succ n ih =>
    rw [List.replicate_succ]
    show List.countP _ (TaskPhase.idle :: _) = 0
    rw [List.countP_cons]
    simp only [inFlight] at ih
    simp [ih]

/-- The semaphore invariant: no reachable pool state has more than `cap`
workers holding a slot. -/
theorem poolInvariant (cap n : Nat) (ts : List TaskPhase)
    (h : PoolReachable cap n ts) : inFlight ts ≤ cap := by
  induction h with
  | init => rw [inFlight_replicate]; exact Nat.zero_le cap
  | step hreach hstep ih =>
    cases hstep with
    | start i hidle hlt =>
      rename_i ts0
      have hb := countP_set_balance (fun t => decide (t = TaskPhase.active))
        ts0 i TaskPhase.idle TaskPhase.active hidle
      simp only [inFlight] at *
      simp at hb
      omega
    | finish i hact =>
      rename_i ts0
      have hb := countP_set_balance (fun t => decide (t = TaskPhase.active))
        ts0 i TaskPhase.active TaskPhase.finished hact
      simp only [inFlight] at *
      simp at hb
      omega

/-! ## Claim theorems -/

/-- C1: after merging a list of successfully parsed manifests into the
shared counters, each package's counter in each section equals the number
of manifests (repositories) declaring that package in that section —
at most one increment per repository per section, since manifest sections
are key-unique maps (the `Nodup` hypotheses).  In particular merging
sections `{a, b}` and `{b, c}` yields counter 2 for `b` and 1 for `a` and
`c` (see the witness). -/
theorem C1_counter_counts_declaring_repos (ms : List Pubspec) (p : String)
    (h : ∀ m ∈ ms, m.dependencies.Nodup ∧ m.devDependencies.Nodup ∧
      m.dependencyOverrides.Nodup) :
    mapGet (aggregate ms).deps p =
      (ms.filter (fun m => decide (p ∈ m.dependencies))).length ∧
    mapGet (aggregate ms).devDeps p =
      (ms.filter (fun m => decide (p ∈ m.devDependencies))).length ∧
    mapGet (aggregate ms).overrides p =
      (ms.filter (fun m => decide (p ∈ m.dependencyOverrides))).length := by
  refine ⟨?_, ?_, ?_⟩
  · have := mapGet_foldl_merge Pubspec.dependencies Counters.deps
      (fun c m => rfl) ms emptyCounters p (fun m hm => (h m hm).1)
    simpa [aggregate, emptyCounters, mapGet] using this
  · have := mapGet_foldl_merge Pubspec.devDependencies Counters.devDeps
      (fun c m => rfl) ms emptyCounters p (fun m hm => (h m hm).2.1)
    simpa [aggregate, emptyCounters, mapGet] using this
  · have := mapGet_foldl_merge Pubspec.dependencyOverrides Counters.overrides
      (fun c m => rfl) ms emptyCounters p (fun m hm => (h m hm).2.2)
    simpa [aggregate, emptyCounters, mapGet] using this

/-- C1 witness: two manifests whose `dependencies` sections are `{a, b}`
and `{b, c}` give counter 2 for `b` and 1 each for `a` and `c`. -/
theorem C1_witness :
    mapGet (aggregate [⟨["a", "b"], [], []⟩, ⟨["b", "c"], [], []⟩]).deps "b" = 2 ∧
    mapGet (aggregate [⟨["a", "b"], [], []⟩, ⟨["b", "c"], [], []⟩]).deps "a" = 1 ∧
    mapGet (aggregate [⟨["a", "b"], [], []⟩, ⟨["b", "c"], [], []⟩]).deps "c" = 1 := by
  refine ⟨?_, ?_, ?_⟩
  · exact (C1_counter_counts_declaring_repos _ "b" (by decide)).1.trans (by decide)
  · exact (C1_counter_counts_declaring_repos _ "a" (by decide)).1.trans (by decide)
  · exact (C1_counter_counts_declaring_repos _ "c" (by decide)).1.trans (by decide)

/-- C2: the default of the `--min` flag is 1; the report is the three
filtered sections; and a package appears in a filtered section with entry
`e` exactly when the counter map holds it with a count `c` satisfying
`minUsage <= c`, `e` carrying exactly the raw count `c` and the URL
obtained by substituting the package name into
`https://pub.dev/packages/%s`. -/
theorem C2_report_filter_and_url :
    flagsGoDefault.min = 1 ∧
    (∀ c mu, buildReport c mu =
      ⟨buildSection c.deps mu, buildSection c.devDeps mu,
       buildSection c.overrides mu⟩) ∧
    (∀ (m : CountMap) (mu : Int) (p : String) (e : PackageEntry),
      (p, e) ∈ buildSection m mu ↔
        ∃ cnt : Nat, (p, cnt) ∈ m ∧ mu ≤ (cnt : Int) ∧
          e = ⟨cnt, pubUrl p⟩) := by
  refine ⟨rfl, fun c mu => rfl, fun m mu p e => ?_⟩
  constructor
  · intro hmem
    unfold buildSection at hmem
    rw [List.mem_filterMap] at hmem
    obtain ⟨⟨ak, ac⟩, ha, hfa⟩ := hmem
    by_cases hc : mu ≤ (ac : Int)
    · rw [if_pos hc, Option.some.injEq, Prod.ext_iff] at hfa
      obtain ⟨h1, h2⟩ := hfa
      subst h1
      exact ⟨ac, ha, hc, h2.symm⟩
    · rw [if_neg hc] at hfa
      exact absurd hfa (by simp)
  · rintro ⟨cnt, hmem, hle, he⟩
    unfold buildSection
    rw [List.mem_filterMap]
    exact ⟨(p, cnt), hmem, by rw [if_pos hle, he]⟩

/-- C2 witness: with counts flutter=3, http=1 and minUsage=2, the filtered
section contains flutter (with its raw count and pub.dev URL) and no entry
for http. -/
theorem C2_witness :
    (("flutter", (⟨3, pubUrl "flutter"⟩ : PackageEntry)) ∈
      buildSection [("flutter", 3), ("http", 1)] 2) ∧
    ¬(∃ e, ("http", e) ∈ buildSection [("flutter", 3), ("http", 1)] 2) := by
  constructor
  · exact (C2_report_filter_and_url.2.2 _ 2 _ _).mpr ⟨3, by decide, by decide, rfl⟩
  · rintro ⟨e, he⟩
    obtain ⟨cnt, hc, hle, _⟩ := (C2_report_filter_and_url.2.2 _ 2 _ _).mp he
    rw [List.mem_cons, List.mem_cons] at hc
    rcases hc with h | h | h
    · rw [Prod.mk.injEq] at h
      exact absurd h.1 (by decide)
    · rw [Prod.mk.injEq] at h
      rw [h.2] at hle
      omega
    · exact absurd h (List.not_mem_nil _)

/-- C3: a per-repository failure (invalid line, branch resolution failure,
fetch failure, and in the minimal variant also a parse failure)
contributes nothing to the counters and leaves every other repository's
contribution intact — removing the failed repository from the input yields
the same counters — and the process exit status stays 0 (`cmd/main.go`
always returns normally from `main`; the minimal variant exits 0 whenever
the final write succeeds, regardless of per-repository failures). -/
theorem C3_failure_isolation :
    (∀ pre post line env,
      (∀ ps, mainWorker line env ≠ StepResult.success ps) →
      runMain (pre ++ (line, env) :: post) = runMain (pre ++ post)) ∧
    (∀ inputs mu w, (mainGoRun inputs mu w).exitCode = 0) ∧
    (∀ pre post line env,
      (∀ ds, minimalWorker line env ≠ StepResultMin.success ds) →
      runMinimal (pre ++ (line, env) :: post) = runMinimal (pre ++ post)) ∧
    (∀ inputs, (minimalRun inputs true).exitCode = 0) := by
  refine ⟨?_, ?_, ?_, ?_⟩
  · intro pre post line env h
    simp only [runMain, List.foldl_append, List.foldl_cons]
    rw [contribOf_eq_self h]
  · intro inputs mu w
    cases w <;> rfl
  · intro pre post line env h
    simp only [runMinimal, List.foldl_append, List.foldl_cons]
    rw [contribOfMin_eq_self h]
  · intro inputs
    rfl

/-- C3 witness: with three repositories where the middle one's manifest
fetch returns 404, the run equals the run over the other two alone, the
exit status is 0, and the two healthy repositories both contribute (the
shared package `http` reaches count 2). -/
theorem C3_witness :
    runMain
      [("o1/r1", ⟨Except.ok "main",
          Except.ok (some (Yaml.map
            [("dependencies", Yaml.map [("http", Yaml.str "a")])]))⟩),
       ("o2/r2", ⟨Except.ok "main", Except.error ()⟩),
       ("o3/r3", ⟨Except.ok "main",
          Except.ok (some (Yaml.map
            [("dependencies",
              Yaml.map [("http", Yaml.str "b"), ("provider", Yaml.str "c")])]))⟩)] =
    runMain
      [("o1/r1", ⟨Except.ok "main",
          Except.ok (some (Yaml.map
            [("dependencies", Yaml.map [("http", Yaml.str "a")])]))⟩),
       ("o3/r3", ⟨Except.ok "main",
          Except.ok (some (Yaml.map
            [("dependencies",
              Yaml.map [("http", Yaml.str "b"), ("provider", Yaml.str "c")])]))⟩)] ∧
    (mainGoRun
      [("o1/r1", ⟨Except.ok "main",
          Except.ok (some (Yaml.map
            [("dependencies", Yaml.map [("http", Yaml.str "a")])]))⟩),
       ("o2/r2", ⟨Except.ok "main", Except.error ()⟩),
       ("o3/r3", ⟨Except.ok "main",
          Except.ok (some (Yaml.map
            [("dependencies",
              Yaml.map [("http", Yaml.str "b"), ("provider", Yaml.str "c")])]))⟩)]
      1 true).exitCode = 0 ∧
    mapGet (runMain
      [("o1/r1", ⟨Except.ok "main",
          Except.ok (some (Yaml.map
            [("dependencies", Yaml.map [("http", Yaml.str "a")])]))⟩),
       ("o2/r2", ⟨Except.ok "main", Except.error ()⟩),
       ("o3/r3", ⟨Except.ok "main",
          Except.ok (some (Yaml.map
            [("dependencies",
              Yaml.map [("http", Yaml.str "b"), ("provider", Yaml.str "c")])]))⟩)]).deps
      "http" = 2 := by
  refine ⟨?_, C3_failure_isolation.2.1 _ 1 true, by decide⟩
  exact C3_failure_isolation.1 [_] [_] "o2/r2"
    ⟨Except.ok "main", Except.error ()⟩
    (fun ps hp => by
      rw [show mainWorker "o2/r2" ⟨Except.ok "main", Except.error ()⟩ =
        StepResult.fetchError from rfl] at hp
      exact StepResult.noConfusion hp)

/-- C4 counterexample: in `cmd/main.go`, a fetched manifest that is not
parseable as YAML does NOT make the repository a per-repository failure:
`parsePubspec` discards the decode error, so the worker reports success
with the zero-valued (empty) manifest instead of any failure outcome. -/
theorem C4_counterexample :
    mainWorker "a/b" ⟨Except.ok "main", Except.ok none⟩ =
      StepResult.success ⟨[], [], []⟩ ∧
    mainWorker "a/b" ⟨Except.ok "main", Except.ok none⟩ ≠
      StepResult.parseError := by
  exact ⟨rfl, by decide⟩

/-- C4 (amended): unparseable YAML contributes zero increments to every
counter section in both variants.  In the minimal variant
`extractDependencies` surfaces the parse error and the worker skips the
repository (`parseError`); in the extended variant the parse error is
discarded and the repository is processed as a success with an empty
manifest — which likewise increments nothing. -/
theorem C4_unparseable_zero_contribution :
    parsePubspec none = ⟨[], [], []⟩ ∧
    (∀ c, mergePubspec c (parsePubspec none) = c) ∧
    extractDependencies none = Except.error () ∧
    (∀ line env c, env.contentRes = Except.ok none →
      contribOf (mainWorker line env) c = c) ∧
    (∀ line, (splitRepo line).isSome = true →
      minimalWorker line (FetchMin.ok none) = StepResultMin.parseError) := by
  refine ⟨rfl, fun c => rfl, rfl, ?_, ?_⟩
  · intro line env c hc
    unfold mainWorker
    by_cases h2 : (goSplitSlash line).length = 2
    · rw [if_pos h2]
      cases hb : env.branchRes with
      | error e => rfl
      | ok b => rw [hc]; rfl
    · rw [if_neg h2]; rfl
  · intro line h
    unfold minimalWorker
    cases hs : splitRepo line with
    | none => rw [hs] at h; exact Bool.noConfusion h
    | some pr => rfl

/-- C4 witness: a worker of the extended variant that fetched unparseable
YAML leaves the counters exactly as they were, and a worker of the minimal
variant reports the parse failure. -/
theorem C4_witness :
    contribOf (mainWorker "a/b" ⟨Except.ok "m", Except.ok none⟩)
      ⟨[("x", 3)], [], []⟩ = ⟨[("x", 3)], [], []⟩ ∧
    minimalWorker "a/b" (FetchMin.ok none) = StepResultMin.parseError := by
  exact ⟨C4_unparseable_zero_contribution.2.2.2.1 "a/b" _ _ rfl,
    C4_unparseable_zero_contribution.2.2.2.2 "a/b" (by decide)⟩

/-- C5 counterexample: the claim's tie-breaking rule ("ties broken by the
original API ordering, first-seen wins") is not guaranteed by the code:
`sort.Slice` is documented as unstable, so with two branches tied at the
same timestamp, `main` listed first and `dev` second, returning `dev` is a
permitted behaviour of `getLatestBranch`, while first-seen tie-breaking
would demand `main`. -/
theorem C5_counterexample :
    getLatestBranchRel (Except.ok [⟨"main", 100⟩, ⟨"dev", 100⟩])
      (Except.ok "dev") ∧
    "dev" ≠ "main" := by
  constructor
  · exact ⟨[⟨"dev", 100⟩, ⟨"main", 100⟩], by decide, by decide, rfl⟩
  · decide

/-- C5 (amended): `getLatestBranch` returns the name of a branch whose
latest-commit author timestamp is maximal; when one branch's timestamp is
strictly greater than every other branch's, that branch is selected (so
the spec's example with distinct timestamps holds); ties are broken
arbitrarily (the sort is not guaranteed stable); an empty branch list or
an API error yields an error. -/
theorem C5_branch_selection :
    (∀ (bs : List Branch) (b : Branch) (res : Except Unit String),
      b ∈ bs → (∀ x ∈ bs, x ≠ b → x.date < b.date) →
      getLatestBranchRel (Except.ok bs) res → res = Except.ok b.name) ∧
    (∀ res, getLatestBranchRel (Except.ok []) res → res = Except.error ()) ∧
    (∀ res, getLatestBranchRel (Except.error ()) res →
      res = Except.error ()) := by
  refine ⟨?_, fun res h => h, fun res h => h⟩
  intro bs b res hmem hmax hrel
  match bs, hmem, hmax, hrel with
  | b0 :: bs0, hmem, hmax, hrel =>
    obtain ⟨out, hperm, hsort, hres⟩ := hrel
    cases out with
    | nil =>
      have := hperm.length_eq
      simp at this
    | cons h0 rest =>
      have hin : b ∈ h0 :: rest := hperm.mem_iff.mp hmem
      have hh0 : h0 ∈ b0 :: bs0 := hperm.mem_iff.mpr (List.mem_cons_self _ _)
      have hhead : h0 = b := by
        by_contra hne
        have hlt : h0.date < b.date := hmax h0 hh0 hne
        have hble : b.date ≤ h0.date := by
          rw [List.mem_cons] at hin
          rcases hin with rfl | hin
          · exact le_refl _
          · exact sortedDescB_head_ge h0 rest hsort b hin
        exact absurd hble (not_le.mpr hlt)
      rw [hres, List.headD_cons, hhead]

/-- C5 witness: with branch timestamps 2023-01-01, 2024-06-01 and
2023-12-31, the branch timestamped 2024-06-01 is a possible (and, by the
theorem, the only possible) selection, and the branch timestamped
2023-01-01 is not selectable. -/
theorem C5_witness :
    getLatestBranchRel
      (Except.ok [⟨"b20230101", 20230101⟩, ⟨"b20240601", 20240601⟩,
        ⟨"b20231231", 20231231⟩])
      (Except.ok "b20240601") ∧
    ¬getLatestBranchRel
      (Except.ok [⟨"b20230101", 20230101⟩, ⟨"b20240601", 20240601⟩,
        ⟨"b20231231", 20231231⟩])
      (Except.ok "b20230101") := by
  constructor
  · exact ⟨[⟨"b20240601", 20240601⟩, ⟨"b20231231", 20231231⟩,
      ⟨"b20230101", 20230101⟩], by decide, by decide, rfl⟩
  · intro hrel
    have := C5_branch_selection.1 _ ⟨"b20240601", 20240601⟩ _
      (by decide) (by decide) hrel
    injection this with h
    exact absurd h (by decide)

/-- Helper for C6: a repository line passes the format gate exactly when
`strings.Split(line, "/")` yields exactly two parts — the parts are not
checked for being non-empty. -/
theorem splitRepo_isSome_iff (s : String) :
    (splitRepo s).isSome = true ↔ (goSplitSlash s).length = 2 := by
  unfold splitRepo
  cases h : goSplitSlash s with
  | nil => simp
  | cons a t =>
    cases t with
    | nil => simp
    | cons b t2 =>
      cases t2 with
      | nil => simp
      | cons c t3 => simp

/-- C6 counterexample: the line `flutter/` splits into the two parts
`flutter` and the empty string, so the code accepts it and proceeds to the
fetch, although the claim's condition (two slash-separated NON-EMPTY
parts) rejects it. -/
theorem C6_counterexample :
    (splitRepo "flutter/").isSome = true ∧
    specValidRepoLine "flutter/" = false := by decide

/-- C6 (amended): a repository line launches the fetch exactly when
`strings.Split(line, "/")` has exactly two parts (which may be empty);
every other line makes the worker of either variant stop at
`invalidFormat` without consulting the network responses. -/
theorem C6_line_gate (s : String) :
    ((splitRepo s).isSome = true ↔ (goSplitSlash s).length = 2) ∧
    (∀ envm : RepoEnv, (goSplitSlash s).length ≠ 2 →
      mainWorker s envm = StepResult.invalidFormat) ∧
    (∀ envn : FetchMin, (goSplitSlash s).length ≠ 2 →
      minimalWorker s envn = StepResultMin.invalidFormat) := by
  refine ⟨splitRepo_isSome_iff s, ?_, ?_⟩
  · intro envm h2
    unfold mainWorker
    rw [if_neg h2]
  · intro envn h2
    have hnone : splitRepo s = none := by
      cases hs : splitRepo s with
      | none => rfl
      | some p =>
        exact absurd ((splitRepo_isSome_iff s).mp (by rw [hs]; rfl)) h2
    unfold minimalWorker
    rw [hnone]

/-- C6 witness: `a/b` passes the gate; `a/b/c` does not and the worker
reports `invalidFormat` without looking at the network. -/
theorem C6_witness :
    (splitRepo "a/b").isSome = true ∧
    mainWorker "a/b/c" ⟨Except.ok "m", Except.error ()⟩ =
      StepResult.invalidFormat ∧
    minimalWorker "a/b/c" FetchMin.fetchErr = StepResultMin.invalidFormat := by
  refine ⟨(C6_line_gate "a/b").1.mpr (by decide), ?_, ?_⟩
  · exact (C6_line_gate "a/b/c").2.1 _ (by decide)
  · exact (C6_line_gate "a/b/c").2.2 _ (by decide)

/-- C7 counterexample: in `cmd/main.go`, missing required flags do NOT
produce a non-zero exit status: `main` prints the message and plainly
returns, so the process exits 0. -/
theorem C7_counterexample :
    mainGoConfig ⟨"", "", "", 1, false⟩ "ghp_token" (some "a/b") =
      ConfigOutcome.exited 0 := by decide

/-- C7 (amended): with a required flag missing or the token missing, both
variants print a message and stop before any network call (the outcome is
`exited`, never `proceed`); the minimal variant exits with status 1, but
the extended variant (`cmd/main.go`) exits with status 0 in all of these
cases, contrary to the claim's non-zero requirement. -/
theorem C7_config_errors :
    (∀ fl tok rf,
      (fl.env = "" ∨ fl.repos = "" ∨ fl.out = "" ∨ tok = "") →
      mainGoConfig fl tok rf = ConfigOutcome.exited 0) ∧
    (∀ fl ef rf, fl.help = false →
      (fl.repos = "" ∨ fl.out = "" ∨ fl.env = "") →
      minimalConfig fl ef rf = ConfigOutcome.exited 1) ∧
    (∀ fl rf c, fl.help = false → fl.repos ≠ "" → fl.out ≠ "" →
      fl.env ≠ "" → readEnvToken c = "" →
      minimalConfig fl (some c) rf = ConfigOutcome.exited 1) ∧
    (∀ fl rf, fl.help = false → fl.repos ≠ "" → fl.out ≠ "" →
      fl.env ≠ "" → minimalConfig fl none rf = ConfigOutcome.exited 1) := by
  refine ⟨?_, ?_, ?_, ?_⟩
  · intro fl tok rf h
    rcases h with h | h | h | h <;> simp [mainGoConfig, h]
  · intro fl ef rf hh h
    rcases h with h | h | h <;> simp [minimalConfig, hh, h]
  · intro fl rf c hh h1 h2 h3 htok
    simp [minimalConfig, hh, h1, h2, h3, htok]
  · intro fl rf hh h1 h2 h3
    simp [minimalConfig, hh, h1, h2, h3]

/-- C7 witness: concrete runs of the amended statement — a missing `--env`
in the extended variant exits 0; a missing `--repos`, a token-less env
file, and an unreadable env file in the minimal variant each exit 1. -/
theorem C7_witness :
    mainGoConfig ⟨"", "repos.txt", "out.json", 1, false⟩ "tok" (some "a/b") =
      ConfigOutcome.exited 0 ∧
    minimalConfig ⟨"", "out.json", ".env", 5, false⟩ (some "GITHUB_TOKEN=t")
      (some "a/b") = ConfigOutcome.exited 1 ∧
    minimalConfig ⟨"repos.txt", "out.json", ".env", 5, false⟩
      (some "OTHER=t") (some "a/b") = ConfigOutcome.exited 1 ∧
    minimalConfig ⟨"repos.txt", "out.json", ".env", 5, false⟩ none
      (some "a/b") = ConfigOutcome.exited 1 := by
  refine ⟨C7_config_errors.1 _ _ _ (Or.inl rfl),
    C7_config_errors.2.1 _ _ _ rfl (Or.inl rfl),
    C7_config_errors.2.2.1 _ _ _ rfl (by decide) (by decide) (by decide)
      (by decide),
    C7_config_errors.2.2.2 _ _ rfl (by decide) (by decide) (by decide)⟩

/-- C8: an absent or explicitly null dependency section decodes to the
empty key set with no error, and merging a manifest whose section decoded
that way leaves that section's counter map unchanged (zero increments) —
stated for each of the three sections of the extended variant. -/
theorem C8_absent_null_sections (v : Option Yaml)
    (h : v = none ∨ v = some Yaml.null) :
    sectionOrNil v = ([], true) ∧
    (∀ m : CountMap, incrAll m [] = m) ∧
    (∀ es, ylookup es "dependencies" = v →
      (yamlUnmarshalPubspec (some (Yaml.map es))).ps.dependencies = [] ∧
      ∀ c, (mergePubspec c
        (yamlUnmarshalPubspec (some (Yaml.map es))).ps).deps = c.deps) ∧
    (∀ es, ylookup es "dev_dependencies" = v →
      (yamlUnmarshalPubspec (some (Yaml.map es))).ps.devDependencies = [] ∧
      ∀ c, (mergePubspec c
        (yamlUnmarshalPubspec (some (Yaml.map es))).ps).devDeps = c.devDeps) ∧
    (∀ es, ylookup es "dependency_overrides" = v →
      (yamlUnmarshalPubspec (some (Yaml.map es))).ps.dependencyOverrides = [] ∧
      ∀ c, (mergePubspec c
        (yamlUnmarshalPubspec (some (Yaml.map es))).ps).overrides =
        c.overrides) := by
  have hsec : sectionOrNil v = ([], true) := by
    rcases h with rfl | rfl <;> rfl
  refine ⟨hsec, fun m => rfl, ?_, ?_, ?_⟩
  · intro es hes
    have h1 : (yamlUnmarshalPubspec (some (Yaml.map es))).ps.dependencies = [] := by
      show (sectionOrNil (ylookup es "dependencies")).1 = []
      rw [hes, hsec]
    refine ⟨h1, fun c => ?_⟩
    show incrAll c.deps
      (yamlUnmarshalPubspec (some (Yaml.map es))).ps.dependencies = c.deps
    rw [h1]
    rfl
  · intro es hes
    have h1 : (yamlUnmarshalPubspec (some (Yaml.map es))).ps.devDependencies = [] := by
      show (sectionOrNil (ylookup es "dev_dependencies")).1 = []
      rw [hes, hsec]
    refine ⟨h1, fun c => ?_⟩
    show incrAll c.devDeps
      (yamlUnmarshalPubspec (some (Yaml.map es))).ps.devDependencies = c.devDeps
    rw [h1]
    rfl
  · intro es hes
    have h1 : (yamlUnmarshalPubspec
        (some (Yaml.map es))).ps.dependencyOverrides = [] := by
      show (sectionOrNil (ylookup es "dependency_overrides")).1 = []
      rw [hes, hsec]
    refine ⟨h1, fun c => ?_⟩
    show incrAll c.overrides
      (yamlUnmarshalPubspec (some (Yaml.map es))).ps.dependencyOverrides =
      c.overrides
    rw [h1]
    rfl

/-- C8 witness: a manifest without a `dependencies` key decodes that
section to the empty mapping, and a manifest with `dependencies: null`
contributes zero increments to the `dependencies` counter. -/
theorem C8_witness :
    (yamlUnmarshalPubspec
      (some (Yaml.map [("name", Yaml.str "app")]))).ps.dependencies = [] ∧
    (mergePubspec ⟨[("x", 1)], [], []⟩
      (yamlUnmarshalPubspec
        (some (Yaml.map [("dependencies", Yaml.null)]))).ps).deps =
      [("x", 1)] := by
  refine ⟨((C8_absent_null_sections none (Or.inl rfl)).2.2.1
    [("name", Yaml.str "app")] rfl).1, ?_⟩
  exact ((C8_absent_null_sections (some Yaml.null) (Or.inr rfl)).2.2.1
    [("dependencies", Yaml.null)] rfl).2 ⟨[("x", 1)], [], []⟩

/-- C9 counterexample: the claim says the concurrency bound is
configurable via a `--limit` flag; `cmd/main.go` registers no such flag
(its flags are env, repos, out, min, help) and hard-codes the semaphore
capacity 5, while only the minimal variant has `--limit`. -/
theorem C9_counterexample :
    mainGoFlagNames.contains "limit" = false ∧
    mainGoSemCapacity = 5 ∧
    minimalFlagNames.contains "limit" = true := by decide

/-- C9 (amended): in every reachable state of the semaphore-gated worker
pool, at most `cap` workers hold a slot (are performing fetch work) at
once; the capacity is the `--limit` flag (default 5) in the minimal
variant and the hard-coded 5 of `cmd/main.go` in the extended variant. -/
theorem C9_bounded_pool :
    (∀ cap n ts, PoolReachable cap n ts → inFlight ts ≤ cap) ∧
    flagsMinDefault.limit = 5 ∧
    mainGoSemCapacity = 5 := by
  exact ⟨poolInvariant, rfl, rfl⟩

/-- C9 witness: a concrete reachable state of a pool with capacity 1 over
two repositories satisfies the bound. -/
theorem C9_witness :
    inFlight [TaskPhase.active, TaskPhase.idle] ≤ 1 := by
  refine C9_bounded_pool.1 1 2 _
    (PoolReachable.step PoolReachable.init
      (PoolStep.start (List.replicate 2 TaskPhase.idle) 0 (by decide)
        (by decide)))

/-- C10: in the minimal variant, `extractDependencies` flattens the
`dependencies` and `dev_dependencies` keys into one list and
`collectDependencies` sums them into one flat map, so a single repository
whose manifest declares the same package in both sections contributes 2
(not 1) to that package's count. -/
theorem C10_flat_double_count (es d v : List (String × Yaml)) (k : String)
    (m : CountMap)
    (hd : ylookup es "dependencies" = some (Yaml.map d))
    (hv : ylookup es "dev_dependencies" = some (Yaml.map v))
    (hk1 : k ∈ d.map (fun e => e.1)) (hk2 : k ∈ v.map (fun e => e.1))
    (hn1 : (d.map (fun e => e.1)).Nodup)
    (hn2 : (v.map (fun e => e.1)).Nodup) :
    extractDependencies (some (Yaml.map es)) =
      Except.ok (d.map (fun e => e.1) ++ v.map (fun e => e.1)) ∧
    mapGet (incrAll m (d.map (fun e => e.1) ++ v.map (fun e => e.1))) k =
      mapGet m k + 2 := by
  constructor
  · simp only [extractDependencies, yamlUnmarshalPubspecMin, hd, hv,
      sectionOrNil, decodeMapKeys]
    rfl
  · rw [incrAll_append, mapGet_incrAll_nodup _ _ _ hn2,
      mapGet_incrAll_nodup _ _ _ hn1, if_pos hk1, if_pos hk2]

/-- C10 witness: a manifest declaring `http` both as a dependency and as a
dev dependency contributes 2 to `http`'s count in the flat map. -/
theorem C10_witness :
    extractDependencies (some (Yaml.map
      [("dependencies", Yaml.map [("http", Yaml.str "^1.0")]),
       ("dev_dependencies",
        Yaml.map [("http", Yaml.str "any"), ("test", Yaml.str "^1.2")])])) =
      Except.ok ["http", "http", "test"] ∧
    mapGet (incrAll [] ["http", "http", "test"]) "http" = 2 := by
  have h := C10_flat_double_count
    [("dependencies", Yaml.map [("http", Yaml.str "^1.0")]),
     ("dev_dependencies",
      Yaml.map [("http", Yaml.str "any"), ("test", Yaml.str "^1.2")])]
    [("http", Yaml.str "^1.0")]
    [("http", Yaml.str "any"), ("test", Yaml.str "^1.2")]
    "http" [] rfl rfl (by decide) (by decide) (by decide) (by decide)
  exact ⟨h.1, h.2⟩

end Pubscan
